import Mathlib

/-!
# Desktop-entry resolution and compatibility classification

A shallow embedding of `softwareevaluationwidget.cpp`
(`readDesktopFile`, `SoftwareEvaluationWidget::clearAppInfos`,
`SoftwareEvaluationWidget::updateAppInfos`,
`SoftwareEvaluationWidget::onItemCheckboxClicked`,
`SoftwareEvaluationWidget::getMigratelist`) together with the few Qt
primitives these functions call.

Conventions of the embedding:
* a `QString` is the list of its characters;
* a readable file is given by its text as `QFile` delivers it in text mode;
  each line read becomes a `QString` by the Qt 5 conversion from `QByteArray`,
  which stops at the first NUL character;
* `line.split("=")[1]` on a line without `=` is an out-of-range access
  (an assertion failure or undefined behaviour in C++); a function that
  performs it returns `none`;
* the widget is an explicit record that every operation takes and returns.
-/

namespace SystemUpgrade

/-! ## Qt primitives -/

/-- A `QString`, as the list of its characters. -/
abbrev QString := List Char

/-- Qt's `QChar::isSpace`: the ASCII white space `U+0009..U+000D` and `U+0020`,
`U+0085`, `U+00A0`, and the Unicode separator categories Zs, Zl, Zp. -/
def isSpace (c : Char) : Bool :=
  let n := c.toNat
  n == 0x20 || (0x09 ≤ n && n ≤ 0x0d) || n == 0x85 || n == 0xa0 || n == 0x1680 ||
    (0x2000 ≤ n && n ≤ 0x200a) || n == 0x2028 || n == 0x2029 || n == 0x202f ||
    n == 0x205f || n == 0x3000

/-- Qt's `QString::trimmed`: white space removed from both ends. -/
def trimmed (s : QString) : QString :=
  ((s.dropWhile isSpace).reverse.dropWhile isSpace).reverse

/-- Qt's `QString::startsWith` (case sensitive): `pre` is a prefix of `s`. -/
def startsWith (s pre : QString) : Bool :=
  match pre, s with
  | [], _ => true
  | _ :: _, [] => false
  | p :: ps, c :: cs => p == c && startsWith cs ps

/-- Qt's `QString::split` with a one-character separator and the default
`KeepEmptyParts`: the fields between the occurrences of `sep`; the result always
has at least one field. -/
def split (sep : Char) : QString → List QString
  | [] => [[]]
  | c :: cs =>
    if c = sep then [] :: split sep cs
    else
      match split sep cs with
      | [] => [[c]]
      | p :: ps => (c :: p) :: ps

/-- The loop `while (!file.atEnd()) line = file.readLine()` seen as the list of
the lines it reads: every line keeps its terminating newline, the last line may
have none, and an empty file has no line. `cur` is the line being read. -/
def readLinesAux (cur : QString) : List Char → List QString
  | [] => if cur = [] then [] else [cur]
  | c :: cs =>
    if c = '\n' then (cur ++ [c]) :: readLinesAux [] cs
    else readLinesAux (cur ++ [c]) cs

/-- The Qt 5 conversion `QString(const QByteArray &)` that the initialisation
`QString line = desktopFile.readLine()` performs: it stops at the first NUL
character, so the string is the text of the line before that character. -/
def fromByteArray (line : List Char) : QString :=
  line.takeWhile fun c => c ≠ Char.ofNat 0

/-- The values the variable `line` takes over the loop of `readDesktopFile` for a
file with the given text: the lines `QFile::readLine` returns, each converted to
a `QString`. -/
def readLines (content : List Char) : List QString :=
  (readLinesAux [] content).map fromByteArray

/-- The part of the file system the widget looks at: which directories exist
(`QDir::cd`) and, for every path, the text of the file when `QFile::open`
succeeds (`none` when the file cannot be opened). -/
structure FileSystem where
  dirExists : QString → Bool
  readText : QString → Option (List Char)

/-- Qt's `QDir::cd` on an absolute directory without trailing slash and a
relative name: the directory changes only when the new directory exists (the
source ignores the boolean result). -/
def QDir.cd (fs : FileSystem) (dir name : QString) : QString :=
  if fs.dirExists (dir ++ '/' :: name) then dir ++ '/' :: name else dir

/-- Qt's `QDir::absoluteFilePath` for an absolute directory without trailing
slash on a Unix file system: a file name Qt treats as absolute (it starts with
`/`, or with `:` as the paths of the Qt resource system do) is returned as it
is, the empty name gives the directory itself, any other name is joined to the
directory with a slash. -/
def QDir.absoluteFilePath (dir fileName : QString) : QString :=
  match fileName with
  | [] => dir
  | c :: _ => if c = '/' ∨ c = ':' then fileName else dir ++ '/' :: fileName

/-- Qt's `Qt::Checked`, the value of `Qt::CheckState` a ticked box reports. -/
def Qt.Checked : Int := 2

/-! ## Data model -/

/-- The record `AppInfo` of `softwareevaluationwidget.h`, with the members the
source file assigns and reads. -/
structure AppInfo where
  pkgName : QString
  name : QString
  iconName : QString
  noDisplay : Bool
  deriving DecidableEq, Repr

/-- The members of `SoftwareEvaluationWidget` the model functions touch.
`m_pkgDesktopMap` is the `QMap<QString, QStringList>` as an association list read
with `List.lookup`; `themeSearchPaths` is the process-wide setting
`QIcon::setThemeSearchPaths` writes, carried along with the widget. -/
structure SoftwareEvaluationWidget where
  m_pkgDesktopMap : List (QString × List QString)
  m_compatAppInfos : List AppInfo
  m_incompatAppInfos : List AppInfo
  m_migrateLists : List QString
  themeSearchPaths : List QString
  deriving DecidableEq, Repr

/-! ## `readDesktopFile` -/

/-- The local variables of `readDesktopFile` that the scan loop updates. -/
structure Scan where
  info : AppInfo
  name : QString
  fallbackName : QString
  deriving DecidableEq, Repr

/-- The expression `line.split("=")[1].trimmed()`; `none` when the line has no
`=`, so that field 1 does not exist. -/
def valueField (line : QString) : Option QString :=
  ((split '=' line)[1]?).map trimmed

/-- The prefix `QString("Name[%1]").arg(kCurrentLocale)`. -/
def localizedNameKey (kCurrentLocale : QString) : QString :=
  "Name[".toList ++ kCurrentLocale ++ "]".toList

/-- One iteration of the scan loop of `readDesktopFile` on the line just read. -/
def scanLine (kCurrentLocale : QString) (s : Scan) (line : QString) : Option Scan :=
  if startsWith line "Icon".toList then
    (valueField line).map fun v => { s with info := { s.info with iconName := v } }
  else if startsWith line (localizedNameKey kCurrentLocale) then
    (valueField line).map fun v => { s with name := v }
  else if startsWith line "Name=".toList then
    (valueField line).map fun v => { s with fallbackName := v }
  else if startsWith line "NoDisplay=".toList then
    (valueField line).map fun v =>
      { s with info := { s.info with noDisplay := decide (v = "true".toList) } }
  else
    some s

/-- The scan loop of `readDesktopFile` over the lines of the file. -/
def scanLines (kCurrentLocale : QString) : List QString → Scan → Option Scan
  | [], s => some s
  | line :: rest, s =>
    match scanLine kCurrentLocale s line with
    | none => none
    | some s1 => scanLines kCurrentLocale rest s1

/-- The function `readDesktopFile(filePath)`. `kCurrentLocale` is the constant of
`core/constants.h`. The result is `none` when the scan performs an out-of-range
access. -/
def readDesktopFile (fs : FileSystem) (kCurrentLocale : QString) (filePath : QString) :
    Option AppInfo :=
  let info : AppInfo := { pkgName := [], name := [], iconName := [], noDisplay := false }
  match fs.readText filePath with
  | some content =>
    (scanLines kCurrentLocale (readLines content) { info := info, name := [], fallbackName := [] }).map
      fun s => { s.info with name := if s.name.length > 0 then s.name else s.fallbackName }
  | none => some { info with name := filePath }

/-! ## `SoftwareEvaluationWidget` -/

/-- The method `SoftwareEvaluationWidget::clearAppInfos`. -/
def clearAppInfos (self : SoftwareEvaluationWidget) : SoftwareEvaluationWidget :=
  { self with m_compatAppInfos := [], m_incompatAppInfos := [] }

/-- The `for` loop of `updateAppInfos` over the desktop file names of `pkg`. -/
def updateAppInfosLoop (fs : FileSystem) (kCurrentLocale appDir pkg : QString) (status : Int) :
    List QString → SoftwareEvaluationWidget → Option SoftwareEvaluationWidget
  | [], self => some self
  | desktopFilename :: rest, self =>
    match readDesktopFile fs kCurrentLocale (QDir.absoluteFilePath appDir desktopFilename) with
    | none => none
    | some info0 =>
      let info : AppInfo := { info0 with pkgName := pkg }
      if status = 1 then
        updateAppInfosLoop fs kCurrentLocale appDir pkg status rest
          { self with m_compatAppInfos := self.m_compatAppInfos ++ [info] }
      else
        updateAppInfosLoop fs kCurrentLocale appDir pkg status rest
          { self with m_incompatAppInfos := self.m_incompatAppInfos ++ [info] }

/-- The method `SoftwareEvaluationWidget::updateAppInfos(pkg, status)`. -/
def updateAppInfos (fs : FileSystem) (kCurrentLocale : QString)
    (self : SoftwareEvaluationWidget) (pkg : QString) (status : Int) :
    Option SoftwareEvaluationWidget :=
  let usrShareDir : QString := "/usr/share".toList
  let iconDir := QDir.cd fs usrShareDir "icons".toList
  let appDir := QDir.cd fs usrShareDir "applications".toList
  let self1 := { self with themeSearchPaths := [iconDir] }
  if (self1.m_pkgDesktopMap.lookup pkg).isSome then
    updateAppInfosLoop fs kCurrentLocale appDir pkg status
      ((self1.m_pkgDesktopMap.lookup pkg).getD []) self1
  else
    some self1

/-- The method `SoftwareEvaluationWidget::onItemCheckboxClicked(state, infoName)`:
`QList::append` when the box is ticked, `QList::removeOne` (the first occurrence)
otherwise. -/
def onItemCheckboxClicked (self : SoftwareEvaluationWidget) (state : Int) (infoName : QString) :
    SoftwareEvaluationWidget :=
  if state = Qt.Checked then
    { self with m_migrateLists := self.m_migrateLists ++ [infoName] }
  else
    { self with m_migrateLists := self.m_migrateLists.erase infoName }

/-- The method `SoftwareEvaluationWidget::getMigratelist`. -/
def getMigratelist (self : SoftwareEvaluationWidget) : List QString :=
  self.m_migrateLists

/-! ## Auxiliary definitions of the statements -/

/-- The selection after a finite sequence of checkbox events, each a pair of the
reported state and the package name, applied from left to right. -/
def clicks (self : SoftwareEvaluationWidget) (events : List (Int × QString)) :
    SoftwareEvaluationWidget :=
  events.foldl (fun w e => onItemCheckboxClicked w e.1 e.2) self

/-- A widget with an empty index, empty lists and an empty selection. -/
def emptyWidget : SoftwareEvaluationWidget :=
  { m_pkgDesktopMap := [], m_compatAppInfos := [], m_incompatAppInfos := [],
    m_migrateLists := [], themeSearchPaths := [] }

/-- A file system in which every directory exists and every path opens a file
with the given text. -/
def fileSystemWithText (text : String) : FileSystem :=
  { dirExists := fun _ => true, readText := fun _ => some text.toList }

/-- A file system in which every directory exists and the applications directory
holds `a.desktop` (`Name=Foo`, `Icon=bar`) and `b.desktop` (`Name=Baz`), all other
paths being unreadable. -/
def demoFileSystem : FileSystem :=
  { dirExists := fun _ => true
    readText := fun path =>
      if path = "/usr/share/applications/a.desktop".toList then
        some "Name=Foo\nIcon=bar\n".toList
      else if path = "/usr/share/applications/b.desktop".toList then
        some "Name=Baz\n".toList
      else none }

/-- A file system in which every directory exists and the only readable file is
`/a.desktop` (`Name=Foo`), outside the applications directory. -/
def rootFileSystem : FileSystem :=
  { dirExists := fun _ => true
    readText := fun path =>
      if path = "/a.desktop".toList then some "Name=Foo\n".toList else none }

/-- A widget whose index maps `pkgA` to `a.desktop` and `pkgB` to `a.desktop`,
`b.desktop`, with empty lists and an empty selection. -/
def demoWidget : SoftwareEvaluationWidget :=
  { emptyWidget with
    m_pkgDesktopMap :=
      [("pkgA".toList, ["a.desktop".toList]),
       ("pkgB".toList, ["a.desktop".toList, "b.desktop".toList])] }

/-- The path `appDir.absoluteFilePath(desktopFilename)` that `updateAppInfos`
hands to `readDesktopFile`, `appDir` being `/usr/share` after
`cd("applications")`. -/
def desktopFilePath (fs : FileSystem) (desktopFilename : QString) : QString :=
  QDir.absoluteFilePath (QDir.cd fs "/usr/share".toList "applications".toList) desktopFilename

/-- The record `info` after the assignment `info.pkgName = pkg`. -/
def withPkgName (pkg : QString) (info : AppInfo) : AppInfo :=
  { info with pkgName := pkg }

/-! ## Selection list -/

/-- Claim C1, as amended: ticking appends without looking for the name. After
one tick of `p` the snapshot is the old selection followed by `p`, with one more
occurrence of `p`; after two ticks it is the old selection followed by `p, p`,
with two more occurrences. -/
theorem onItemCheckboxClicked_checked_appends (self : SoftwareEvaluationWidget) (p : QString) :
    getMigratelist (onItemCheckboxClicked self Qt.Checked p) = self.m_migrateLists ++ [p] ∧
    (getMigratelist (onItemCheckboxClicked self Qt.Checked p)).count p
      = self.m_migrateLists.count p + 1 ∧
    getMigratelist (onItemCheckboxClicked (onItemCheckboxClicked self Qt.Checked p) Qt.Checked p)
      = self.m_migrateLists ++ [p, p] ∧
    (getMigratelist
        (onItemCheckboxClicked (onItemCheckboxClicked self Qt.Checked p) Qt.Checked p)).count p
      = self.m_migrateLists.count p + 2 := by
  simp [getMigratelist, onItemCheckboxClicked, List.count_append]

/-- Claim C1 fails as stated: from the empty selection, ticking `p` twice gives
the snapshot `[p, p]`, in which `p` occurs twice and not exactly once. -/
theorem onItemCheckboxClicked_checked_twice_counterexample :
    getMigratelist
        (onItemCheckboxClicked (onItemCheckboxClicked emptyWidget Qt.Checked "p".toList)
          Qt.Checked "p".toList)
      = ["p".toList, "p".toList] ∧
    ¬ (getMigratelist
        (onItemCheckboxClicked (onItemCheckboxClicked emptyWidget Qt.Checked "p".toList)
          Qt.Checked "p".toList)).count "p".toList = 1 := by
  decide

/-- Erasing the first occurrence of `p` leaves the other names as they were. -/
theorem filter_ne_erase (p : QString) (l : List QString) :
    (l.erase p).filter (fun q => decide (q ≠ p)) = l.filter (fun q => decide (q ≠ p)) := by
  induction l with
  | nil => rfl
  | cons a t ih =>
    by_cases h : a = p
    · subst h
      simp
    · have h1 : ¬ (a == p) = true := by simpa using h
      rw [List.erase_cons_tail h1]
      simpa [List.filter_cons, h] using ih

/-- Claim C7, as amended: a click with any state other than `Qt::Checked`
removes the first occurrence of `p` only. The snapshot then is the old selection
with that occurrence erased, it holds one occurrence of `p` fewer, the names
other than `p` keep their order, and `p` is absent whenever it occurred at most
once before. -/
theorem onItemCheckboxClicked_unchecked_removes_one (self : SoftwareEvaluationWidget)
    (state : Int) (p : QString) (hstate : state ≠ Qt.Checked) :
    getMigratelist (onItemCheckboxClicked self state p) = self.m_migrateLists.erase p ∧
    (getMigratelist (onItemCheckboxClicked self state p)).count p
      = self.m_migrateLists.count p - 1 ∧
    (getMigratelist (onItemCheckboxClicked self state p)).filter (fun q => decide (q ≠ p))
      = self.m_migrateLists.filter (fun q => decide (q ≠ p)) ∧
    (self.m_migrateLists.count p ≤ 1 → p ∉ getMigratelist (onItemCheckboxClicked self state p)) := by
  have hres : getMigratelist (onItemCheckboxClicked self state p) = self.m_migrateLists.erase p := by
    simp [getMigratelist, onItemCheckboxClicked, hstate]
  have hcount : (self.m_migrateLists.erase p).count p = self.m_migrateLists.count p - 1 :=
    List.count_erase_self p self.m_migrateLists
  refine ⟨hres, ?_, ?_, ?_⟩
  · rw [hres, hcount]
  · rw [hres, filter_ne_erase]
  · intro hle hmem
    rw [hres] at hmem
    have hpos : 0 < (self.m_migrateLists.erase p).count p := List.count_pos_iff.mpr hmem
    omega

/-- Witness of `onItemCheckboxClicked_unchecked_removes_one`: unticking `b` in
the selection `a, b, c` leaves `a, c`. -/
theorem onItemCheckboxClicked_unchecked_removes_one_witness :
    (0 : Int) ≠ Qt.Checked ∧
    getMigratelist (onItemCheckboxClicked
        { emptyWidget with m_migrateLists := ["a".toList, "b".toList, "c".toList] } 0 "b".toList)
      = ["a".toList, "c".toList] :=
  ⟨by decide,
    (onItemCheckboxClicked_unchecked_removes_one
      { emptyWidget with m_migrateLists := ["a".toList, "b".toList, "c".toList] } 0 "b".toList
      (by decide)).1.trans (by decide)⟩

/-- Claim C7 fails as stated: the selection reached from the empty one by
ticking `p` twice still contains `p` after `p` is unticked. -/
theorem onItemCheckboxClicked_unchecked_counterexample :
    getMigratelist
        (onItemCheckboxClicked
          (clicks emptyWidget [(Qt.Checked, "p".toList), (Qt.Checked, "p".toList)]) 0 "p".toList)
      = ["p".toList] ∧
    "p".toList ∈ getMigratelist
        (onItemCheckboxClicked
          (clicks emptyWidget [(Qt.Checked, "p".toList), (Qt.Checked, "p".toList)]) 0 "p".toList) := by
  decide

/-! ## `readDesktopFile`: single lines -/

/-- Claim C2 fails on a file whose only line is `Icon`: whatever the locale and
the path, the scan takes the `Icon` branch and reads field 1 of a one-field
split, so `readDesktopFile` does not return. -/
theorem readDesktopFile_icon_line_without_equals (kCurrentLocale filePath : QString) :
    readDesktopFile (fileSystemWithText "Icon\n") kCurrentLocale filePath = none := by
  rfl

/-- Claim C6: when the file at `filePath` cannot be opened, `readDesktopFile`
returns the record whose name is `filePath`, whose `noDisplay` is false and
whose icon and package name are empty. -/
theorem readDesktopFile_unreadable (fs : FileSystem) (kCurrentLocale filePath : QString)
    (hopen : fs.readText filePath = none) :
    readDesktopFile fs kCurrentLocale filePath
      = some { pkgName := [], name := filePath, iconName := [], noDisplay := false } := by
  simp [readDesktopFile, hopen]

/-- Witness of `readDesktopFile_unreadable` on a file system without files. -/
theorem readDesktopFile_unreadable_witness :
    readDesktopFile { dirExists := fun _ => false, readText := fun _ => none }
        "zh_CN".toList "/usr/share/applications/a.desktop".toList
      = some { pkgName := [], name := "/usr/share/applications/a.desktop".toList,
               iconName := [], noDisplay := false } :=
  readDesktopFile_unreadable { dirExists := fun _ => false, readText := fun _ => none }
    "zh_CN".toList "/usr/share/applications/a.desktop".toList rfl

/-- Claim C9 fails on the line `IconTheme=x`: with it after `Icon=a` the icon
read is `x`, without it the icon read is `a`, whatever the locale. -/
theorem readDesktopFile_iconTheme_line (kCurrentLocale filePath : QString) :
    readDesktopFile (fileSystemWithText "Icon=a\nIconTheme=x\n") kCurrentLocale filePath
      = some { pkgName := [], name := [], iconName := "x".toList, noDisplay := false } ∧
    readDesktopFile (fileSystemWithText "Icon=a\n") kCurrentLocale filePath
      = some { pkgName := [], name := [], iconName := "a".toList, noDisplay := false } := by
  constructor <;> rfl

/-- Claim C10 fails on the line `Name=a=b`: the name read is `a`, the text up to
the second `=`, and not `a=b`, whatever the locale. -/
theorem readDesktopFile_name_with_equals (kCurrentLocale filePath : QString) :
    readDesktopFile (fileSystemWithText "Name=a=b\n") kCurrentLocale filePath
      = some { pkgName := [], name := "a".toList, iconName := [], noDisplay := false } ∧
    readDesktopFile (fileSystemWithText "Name=a=b\n") kCurrentLocale filePath
      ≠ some { pkgName := [], name := "a=b".toList, iconName := [], noDisplay := false } := by
  have h : readDesktopFile (fileSystemWithText "Name=a=b\n") kCurrentLocale filePath
      = some { pkgName := [], name := "a".toList, iconName := [], noDisplay := false } := by
    rfl
  refine ⟨h, ?_⟩
  rw [h]
  decide

/-- Claim C3 fails, with the locale `de`, on files in which every recognised line
contains `=`. With the lines `Name=c` and `Name[de]=a=b` the localized name is
`a=b`, yet the name returned is `a`, the text between the first and the second
`=`. With the lines `Name[de]==x` and `Name=F` the localized name `=x` is not
empty, yet the name returned is `F`. With the lines `Name=F` and
`Name[de]Extra=Q` the file has no `Name[de]` line, yet the name returned is `Q`
and not `F`. -/
theorem readDesktopFile_localized_name_defects (filePath : QString) :
    readDesktopFile (fileSystemWithText "Name=c\nName[de]=a=b") "de".toList filePath
      = some { pkgName := [], name := "a".toList, iconName := [], noDisplay := false } ∧
    readDesktopFile (fileSystemWithText "Name=c\nName[de]=a=b") "de".toList filePath
      ≠ some { pkgName := [], name := "a=b".toList, iconName := [], noDisplay := false } ∧
    readDesktopFile (fileSystemWithText "Name[de]==x\nName=F\n") "de".toList filePath
      = some { pkgName := [], name := "F".toList, iconName := [], noDisplay := false } ∧
    readDesktopFile (fileSystemWithText "Name=F\nName[de]Extra=Q\n") "de".toList filePath
      = some { pkgName := [], name := "Q".toList, iconName := [], noDisplay := false } := by
  have h : readDesktopFile (fileSystemWithText "Name=c\nName[de]=a=b") "de".toList filePath
      = some { pkgName := [], name := "a".toList, iconName := [], noDisplay := false } := by
    rfl
  refine ⟨h, ?_, by rfl, by rfl⟩
  rw [h]
  decide

/-! ## `updateAppInfos` -/

/-- The loop of `updateAppInfos` when every desktop file is read to its end: the
records read, stamped with the package name, are appended in the order of the
file names to the list the status selects. -/
theorem updateAppInfosLoop_of_reads (fs : FileSystem) (kCurrentLocale appDir pkg : QString)
    (status : Int) (files : List QString) (infos : List AppInfo)
    (self : SoftwareEvaluationWidget)
    (hread : List.Forall₂
      (fun f info => readDesktopFile fs kCurrentLocale (QDir.absoluteFilePath appDir f) = some info)
      files infos) :
    updateAppInfosLoop fs kCurrentLocale appDir pkg status files self
      = some { self with
          m_compatAppInfos :=
            if status = 1 then self.m_compatAppInfos ++ infos.map (withPkgName pkg)
            else self.m_compatAppInfos
          m_incompatAppInfos :=
            if status = 1 then self.m_incompatAppInfos
            else self.m_incompatAppInfos ++ infos.map (withPkgName pkg) } := by
  induction hread generalizing self with
  | nil => by_cases hs : status = 1 <;> simp [updateAppInfosLoop, hs]
  | cons hhead _ ih =>
    by_cases hs : status = 1
    · subst hs
      simp [updateAppInfosLoop, hhead, withPkgName] at ih ⊢
      rw [ih]
      simp
    · simp [updateAppInfosLoop, hhead, hs, withPkgName] at ih ⊢
      rw [ih]
      simp

/-- When the loop of `updateAppInfos` returns, every desktop file was read to its
end. -/
theorem reads_of_updateAppInfosLoop (fs : FileSystem) (kCurrentLocale appDir pkg : QString)
    (status : Int) (files : List QString) (self r : SoftwareEvaluationWidget)
    (h : updateAppInfosLoop fs kCurrentLocale appDir pkg status files self = some r) :
    ∃ infos, List.Forall₂
      (fun f info => readDesktopFile fs kCurrentLocale (QDir.absoluteFilePath appDir f) = some info)
      files infos := by
  induction files generalizing self with
  | nil => exact ⟨[], List.Forall₂.nil⟩
  | cons f rest ih =>
    cases hr : readDesktopFile fs kCurrentLocale (QDir.absoluteFilePath appDir f) with
    | none => simp [updateAppInfosLoop, hr] at h
    | some info =>
      by_cases hs : status = 1
      · subst hs
        simp only [updateAppInfosLoop, hr, if_true] at h
        obtain ⟨infos, hinfos⟩ := ih _ h
        exact ⟨info :: infos, List.Forall₂.cons hr hinfos⟩
      · simp only [updateAppInfosLoop, hr, hs, if_false] at h
        obtain ⟨infos, hinfos⟩ := ih _ h
        exact ⟨info :: infos, List.Forall₂.cons hr hinfos⟩

/-- The method `updateAppInfos` on a package of the index whose desktop files are
all read to their end. -/
theorem updateAppInfos_of_reads (fs : FileSystem) (kCurrentLocale : QString)
    (self : SoftwareEvaluationWidget) (pkg : QString) (status : Int)
    (files : List QString) (infos : List AppInfo)
    (hidx : self.m_pkgDesktopMap.lookup pkg = some files)
    (hread : List.Forall₂
      (fun f info => readDesktopFile fs kCurrentLocale (desktopFilePath fs f) = some info)
      files infos) :
    updateAppInfos fs kCurrentLocale self pkg status
      = some { self with
          themeSearchPaths := [QDir.cd fs "/usr/share".toList "icons".toList]
          m_compatAppInfos :=
            if status = 1 then self.m_compatAppInfos ++ infos.map (withPkgName pkg)
            else self.m_compatAppInfos
          m_incompatAppInfos :=
            if status = 1 then self.m_incompatAppInfos
            else self.m_incompatAppInfos ++ infos.map (withPkgName pkg) } := by
  unfold updateAppInfos
  simp only [hidx, Option.isSome_some, if_true, Option.getD_some]
  exact updateAppInfosLoop_of_reads fs kCurrentLocale _ pkg status files infos _ hread

/-- The method `updateAppInfos` on a package that is not a key of the index. -/
theorem updateAppInfos_of_lookup_none (fs : FileSystem) (kCurrentLocale : QString)
    (self : SoftwareEvaluationWidget) (pkg : QString) (status : Int)
    (hidx : self.m_pkgDesktopMap.lookup pkg = none) :
    updateAppInfos fs kCurrentLocale self pkg status
      = some { self with themeSearchPaths := [QDir.cd fs "/usr/share".toList "icons".toList] } := by
  unfold updateAppInfos
  simp [hidx]

/-- When `updateAppInfos` returns on a package of the index, every desktop file
of the package was read to its end. -/
theorem reads_of_updateAppInfos (fs : FileSystem) (kCurrentLocale : QString)
    (self r : SoftwareEvaluationWidget) (pkg : QString) (status : Int) (files : List QString)
    (hidx : self.m_pkgDesktopMap.lookup pkg = some files)
    (h : updateAppInfos fs kCurrentLocale self pkg status = some r) :
    ∃ infos, List.Forall₂
      (fun f info => readDesktopFile fs kCurrentLocale (desktopFilePath fs f) = some info)
      files infos := by
  unfold updateAppInfos at h
  simp only [hidx, Option.isSome_some, if_true, Option.getD_some] at h
  exact reads_of_updateAppInfosLoop fs kCurrentLocale _ pkg status files _ r h

/-- Claim C4, as amended: for a package of the index with desktop files
`f1, ..., fn` that are all read to their end, `updateAppInfos(pkg, status)`
returns, and it appends the `n` records read, in the order of the files and each
with `pkgName` set to `pkg`, to `m_compatAppInfos` when `status` is 1 and to
`m_incompatAppInfos` otherwise; the entries already there stay in front, the
other list, the index and the selection are unchanged. The record of `fi` is
read from `appDir.absoluteFilePath(fi)`, which is `/usr/share/applications/`
followed by `fi` when that directory exists and `fi` is not empty and starts
neither with `/` nor with `:`. -/
theorem updateAppInfos_appends (fs : FileSystem) (kCurrentLocale : QString)
    (self : SoftwareEvaluationWidget) (pkg : QString) (status : Int)
    (files : List QString) (infos : List AppInfo)
    (hidx : self.m_pkgDesktopMap.lookup pkg = some files)
    (hread : List.Forall₂
      (fun f info => readDesktopFile fs kCurrentLocale (desktopFilePath fs f) = some info)
      files infos) :
    updateAppInfos fs kCurrentLocale self pkg status
      = some { self with
          themeSearchPaths := [QDir.cd fs "/usr/share".toList "icons".toList]
          m_compatAppInfos :=
            if status = 1 then self.m_compatAppInfos ++ infos.map (withPkgName pkg)
            else self.m_compatAppInfos
          m_incompatAppInfos :=
            if status = 1 then self.m_incompatAppInfos
            else self.m_incompatAppInfos ++ infos.map (withPkgName pkg) } ∧
    (fs.dirExists "/usr/share/applications".toList = true →
      ∀ (c : Char) (cs : QString), c ≠ '/' → c ≠ ':' →
        desktopFilePath fs (c :: cs) = "/usr/share/applications/".toList ++ c :: cs) := by
  refine ⟨updateAppInfos_of_reads fs kCurrentLocale self pkg status files infos hidx hread, ?_⟩
  intro hdir c cs h1 h2
  have hdir1 : fs.dirExists ("/usr/share".toList ++ '/' :: "applications".toList) = true := hdir
  simp only [desktopFilePath, QDir.cd, hdir1, if_true, QDir.absoluteFilePath, h1, h2, or_self,
    if_false]
  rfl

/-- Witness of `updateAppInfos_appends`, on the two examples of the
specification: `pkgA` with `a.desktop` (`Name=Foo`, `Icon=bar`) and status 1
gives one compatible entry and no incompatible one; `pkgB` with two desktop
files and status 0 gives two incompatible entries in the order of the files. -/
theorem updateAppInfos_appends_witness :
    updateAppInfos demoFileSystem "zh_CN".toList demoWidget "pkgA".toList 1
      = some { demoWidget with
          themeSearchPaths := ["/usr/share/icons".toList]
          m_compatAppInfos :=
            [{ pkgName := "pkgA".toList, name := "Foo".toList, iconName := "bar".toList,
               noDisplay := false }]
          m_incompatAppInfos := [] } ∧
    updateAppInfos demoFileSystem "zh_CN".toList demoWidget "pkgB".toList 0
      = some { demoWidget with
          themeSearchPaths := ["/usr/share/icons".toList]
          m_compatAppInfos := []
          m_incompatAppInfos :=
            [{ pkgName := "pkgB".toList, name := "Foo".toList, iconName := "bar".toList,
               noDisplay := false },
             { pkgName := "pkgB".toList, name := "Baz".toList, iconName := [],
               noDisplay := false }] } :=
  ⟨(updateAppInfos_appends demoFileSystem "zh_CN".toList demoWidget "pkgA".toList 1
      ["a.desktop".toList]
      [{ pkgName := [], name := "Foo".toList, iconName := "bar".toList, noDisplay := false }]
      (by decide) (List.Forall₂.cons (by decide) List.Forall₂.nil)).1.trans (by decide),
   (updateAppInfos_appends demoFileSystem "zh_CN".toList demoWidget "pkgB".toList 0
      ["a.desktop".toList, "b.desktop".toList]
      [{ pkgName := [], name := "Foo".toList, iconName := "bar".toList, noDisplay := false },
       { pkgName := [], name := "Baz".toList, iconName := [], noDisplay := false }]
      (by decide)
      (List.Forall₂.cons (by decide) (List.Forall₂.cons (by decide) List.Forall₂.nil))).1.trans
      (by decide)⟩

/-- Claim C4 fails as stated on a desktop file name that starts with `/`: for
the index that maps `pkgA` to `/a.desktop`, the entry appended is read from
`/a.desktop` (its name is `Foo`), not from `/usr/share/applications/` followed by
the file name (an unreadable path, whose record would carry that path as its
name). -/
theorem updateAppInfos_absolute_name_counterexample :
    (updateAppInfos rootFileSystem "zh_CN".toList
        { emptyWidget with m_pkgDesktopMap := [("pkgA".toList, ["/a.desktop".toList])] }
        "pkgA".toList 1).map (fun w => w.m_compatAppInfos)
      = some [{ pkgName := "pkgA".toList, name := "Foo".toList, iconName := [],
                noDisplay := false }] ∧
    (readDesktopFile rootFileSystem "zh_CN".toList
        ("/usr/share/applications/".toList ++ "/a.desktop".toList)).map
        (fun info => [withPkgName "pkgA".toList info])
      = some [{ pkgName := "pkgA".toList, name := "/usr/share/applications//a.desktop".toList,
                iconName := [], noDisplay := false }] ∧
    (updateAppInfos rootFileSystem "zh_CN".toList
        { emptyWidget with m_pkgDesktopMap := [("pkgA".toList, ["/a.desktop".toList])] }
        "pkgA".toList 1).map (fun w => w.m_compatAppInfos)
      ≠ (readDesktopFile rootFileSystem "zh_CN".toList
        ("/usr/share/applications/".toList ++ "/a.desktop".toList)).map
        (fun info => [withPkgName "pkgA".toList info]) := by
  decide

/-- Claim C5: for a package that is not a key of the index, `updateAppInfos`
returns, and the widget it returns has the same compatible list, incompatible
list, index and selection as before. -/
theorem updateAppInfos_unknown_package (fs : FileSystem) (kCurrentLocale : QString)
    (self : SoftwareEvaluationWidget) (pkg : QString) (status : Int)
    (hidx : self.m_pkgDesktopMap.lookup pkg = none) :
    ∃ r, updateAppInfos fs kCurrentLocale self pkg status = some r ∧
      r.m_compatAppInfos = self.m_compatAppInfos ∧
      r.m_incompatAppInfos = self.m_incompatAppInfos ∧
      r.m_pkgDesktopMap = self.m_pkgDesktopMap ∧
      r.m_migrateLists = self.m_migrateLists :=
  ⟨_, updateAppInfos_of_lookup_none fs kCurrentLocale self pkg status hidx, rfl, rfl, rfl, rfl⟩

/-- Witness of `updateAppInfos_unknown_package`: `pkgC` is not a key of the index
of `demoWidget`. -/
theorem updateAppInfos_unknown_package_witness :
    demoWidget.m_pkgDesktopMap.lookup "pkgC".toList = none ∧
    ∃ r, updateAppInfos demoFileSystem "zh_CN".toList demoWidget "pkgC".toList 1 = some r ∧
      r.m_compatAppInfos = demoWidget.m_compatAppInfos ∧
      r.m_incompatAppInfos = demoWidget.m_incompatAppInfos ∧
      r.m_pkgDesktopMap = demoWidget.m_pkgDesktopMap ∧
      r.m_migrateLists = demoWidget.m_migrateLists :=
  ⟨by decide,
    updateAppInfos_unknown_package demoFileSystem "zh_CN".toList demoWidget "pkgC".toList 1
      (by decide)⟩

/-- Claim C8: let `r` be the result of one `updateAppInfos(pkg, 1)` from a widget
`s0` with empty lists. A second `updateAppInfos(pkg, 1)` on `r`, with the same
files, returns a widget whose compatible list is that of `r` followed by itself,
the incompatible list staying as it is. From any widget `self` with the index of
`s0`, `clearAppInfos` empties both lists and keeps the index and the selection,
and `updateAppInfos(pkg, 1)` after it returns the two lists of `r`. -/
theorem updateAppInfos_twice_and_clear (fs : FileSystem) (kCurrentLocale : QString)
    (self s0 r : SoftwareEvaluationWidget) (pkg : QString)
    (hcompat : s0.m_compatAppInfos = []) (hincompat : s0.m_incompatAppInfos = [])
    (hindex : self.m_pkgDesktopMap = s0.m_pkgDesktopMap)
    (hsingle : updateAppInfos fs kCurrentLocale s0 pkg 1 = some r) :
    (∃ r2, updateAppInfos fs kCurrentLocale r pkg 1 = some r2 ∧
      r2.m_compatAppInfos = r.m_compatAppInfos ++ r.m_compatAppInfos ∧
      r2.m_incompatAppInfos = r.m_incompatAppInfos) ∧
    (clearAppInfos self).m_compatAppInfos = [] ∧
    (clearAppInfos self).m_incompatAppInfos = [] ∧
    (clearAppInfos self).m_pkgDesktopMap = self.m_pkgDesktopMap ∧
    (clearAppInfos self).m_migrateLists = self.m_migrateLists ∧
    (∃ r3, updateAppInfos fs kCurrentLocale (clearAppInfos self) pkg 1 = some r3 ∧
      r3.m_compatAppInfos = r.m_compatAppInfos ∧
      r3.m_incompatAppInfos = r.m_incompatAppInfos) := by
  have hclear : (clearAppInfos self).m_pkgDesktopMap = s0.m_pkgDesktopMap := hindex
  cases hl : s0.m_pkgDesktopMap.lookup pkg with
  | none =>
    have hr := updateAppInfos_of_lookup_none fs kCurrentLocale s0 pkg 1 hl
    rw [hsingle] at hr
    have hr1 : r = _ := Option.some.inj hr
    have hlr : r.m_pkgDesktopMap.lookup pkg = none := by rw [hr1]; exact hl
    have hlc : (clearAppInfos self).m_pkgDesktopMap.lookup pkg = none := by rw [hclear]; exact hl
    refine ⟨⟨_, updateAppInfos_of_lookup_none fs kCurrentLocale r pkg 1 hlr, ?_, rfl⟩,
      rfl, rfl, rfl, rfl,
      ⟨_, updateAppInfos_of_lookup_none fs kCurrentLocale _ pkg 1 hlc, ?_, ?_⟩⟩
    · rw [hr1]; simp [hcompat]
    · rw [hr1]; simp [hcompat, clearAppInfos]
    · rw [hr1]; simp [hincompat, clearAppInfos]
  | some files =>
    obtain ⟨infos, hinfos⟩ := reads_of_updateAppInfos fs kCurrentLocale s0 r pkg 1 files hl hsingle
    have hr := updateAppInfos_of_reads fs kCurrentLocale s0 pkg 1 files infos hl hinfos
    rw [hsingle] at hr
    have hr1 : r = _ := Option.some.inj hr
    have hlr : r.m_pkgDesktopMap.lookup pkg = some files := by rw [hr1]; exact hl
    have hlc : (clearAppInfos self).m_pkgDesktopMap.lookup pkg = some files := by
      rw [hclear]; exact hl
    refine ⟨⟨_, updateAppInfos_of_reads fs kCurrentLocale r pkg 1 files infos hlr hinfos, ?_, ?_⟩,
      rfl, rfl, rfl, rfl,
      ⟨_, updateAppInfos_of_reads fs kCurrentLocale _ pkg 1 files infos hlc hinfos, ?_, ?_⟩⟩
    · rw [hr1]; simp [hcompat]
    · simp
    · rw [hr1]; simp [hcompat, clearAppInfos]
    · rw [hr1]; simp [hincompat, clearAppInfos]

/-- Witness of `updateAppInfos_twice_and_clear`: for `pkgB` of `demoWidget`, one
call gives the entries of `a.desktop` and `b.desktop`, a second call gives them
twice, and a call after `clearAppInfos` on a widget with other lists gives them
once. -/
theorem updateAppInfos_twice_and_clear_witness :
    updateAppInfos demoFileSystem "zh_CN".toList demoWidget "pkgB".toList 1
      = some { demoWidget with
          themeSearchPaths := ["/usr/share/icons".toList]
          m_compatAppInfos :=
            [{ pkgName := "pkgB".toList, name := "Foo".toList, iconName := "bar".toList,
               noDisplay := false },
             { pkgName := "pkgB".toList, name := "Baz".toList, iconName := [],
               noDisplay := false }] } ∧
    (∃ r2, updateAppInfos demoFileSystem "zh_CN".toList
        { demoWidget with
          themeSearchPaths := ["/usr/share/icons".toList]
          m_compatAppInfos :=
            [{ pkgName := "pkgB".toList, name := "Foo".toList, iconName := "bar".toList,
               noDisplay := false },
             { pkgName := "pkgB".toList, name := "Baz".toList, iconName := [],
               noDisplay := false }] } "pkgB".toList 1 = some r2 ∧
      r2.m_compatAppInfos =
        [{ pkgName := "pkgB".toList, name := "Foo".toList, iconName := "bar".toList,
           noDisplay := false },
         { pkgName := "pkgB".toList, name := "Baz".toList, iconName := [], noDisplay := false },
         { pkgName := "pkgB".toList, name := "Foo".toList, iconName := "bar".toList,
           noDisplay := false },
         { pkgName := "pkgB".toList, name := "Baz".toList, iconName := [],
           noDisplay := false }]) :=
  ⟨by decide, by
    obtain ⟨⟨r2, h1, h2, _⟩, _⟩ := updateAppInfos_twice_and_clear demoFileSystem "zh_CN".toList
      { demoWidget with
        m_compatAppInfos := [{ pkgName := [], name := [], iconName := [], noDisplay := true }] }
      demoWidget
      { demoWidget with
        themeSearchPaths := ["/usr/share/icons".toList]
        m_compatAppInfos :=
          [{ pkgName := "pkgB".toList, name := "Foo".toList, iconName := "bar".toList,
             noDisplay := false },
           { pkgName := "pkgB".toList, name := "Baz".toList, iconName := [],
             noDisplay := false }] }
      "pkgB".toList rfl rfl rfl (by decide)
    exact ⟨r2, h1, h2⟩⟩

end SystemUpgrade
